import Mathlib

/-!
Verification of the vexctl interactive triage browser
(`internal/triage`, `internal/triage/table`, `pkg/formats`).

The Go source is shallowly embedded below: the record types mirror the Go
structs, Go `int` is modelled as `Int` (no arithmetic here approaches the
64-bit boundary), Go strings are Lean `String`s (substring search is
modelled at character granularity; all inputs of interest are ASCII), and
the two unbounded `for` loops of `findNext`/`findPrevious` are modelled
with an explicit fuel parameter, `none` standing for "the source loop has
not returned within that many iterations".
-/

namespace formats

/-- `formats.Package` from pkg/formats/report.go. The Go field `Type` is
spelled `Type'` here because `Type` is reserved in Lean. -/
structure Package where
  Name : String
  Version : String
  Type' : String
  OriginPackageName : String
  Locations : List String
deriving DecidableEq, Repr

/-- `formats.Vulnerability` from pkg/formats/report.go. -/
structure Vulnerability where
  ID : String
  Severity : String
  URL : String
  Description : String
deriving DecidableEq, Repr

/-- `formats.Match` from pkg/formats/report.go. -/
structure Match where
  Package : Package
  Vulnerability : Vulnerability
deriving DecidableEq, Repr

/-- `formats.Normalized` from pkg/formats/report.go. -/
structure Normalized where
  Matches : List Match
  Distro : String
deriving DecidableEq, Repr

/-- The zero value of `formats.Match` (all fields empty), used as the
out-of-range default of list indexing; under the invariants proved below
every index that is actually read is in range (Go would panic otherwise). -/
def zeroMatch : Match :=
  { Package := { Name := "", Version := "", Type' := "", OriginPackageName := "", Locations := [] }
    Vulnerability := { ID := "", Severity := "", URL := "", Description := "" } }

end formats

namespace gostrings

/-- Whether the first list is a leading segment of the second
(character-level model of the byte test done by Go `strings.Contains`). -/
def leadsIn : List Char → List Char → Bool
  | [], _ => true
  | _ :: _, [] => false
  | c :: cs, d :: ds => c = d && leadsIn cs ds

/-- Whether `sub` occurs contiguously inside the second list. -/
def occursIn (sub : List Char) : List Char → Bool
  | [] => sub.isEmpty
  | d :: ds => leadsIn sub (d :: ds) || occursIn sub ds

/-- Model of Go `strings.Contains(s, substr)`; in particular it is `true`
for the empty `substr`, exactly as in Go. -/
def Contains (s substr : String) : Bool :=
  occursIn substr.data s.data

end gostrings

namespace table

/-- `notFound` constant from internal/triage/table/model.go. -/
def notFound : Int := -1

/-- Error values returned by the table search API: `NoMatchFound` from
internal/triage/table/model.go. -/
inductive GoErr where
  | NoMatchFound
deriving DecidableEq, Repr

/-- `table.Model` from internal/triage/table/model.go. -/
structure Model where
  height : Int
  width : Int
  firstRowShown : Int
  rowSelected : Int
  findExpression : String
  data : formats.Normalized
deriving DecidableEq, Repr

/-- `table.New` from internal/triage/table/model.go: only `firstRowShown`,
`rowSelected` and `data` are assigned; the remaining fields take the Go
zero values. -/
def New (data : formats.Normalized) : Model :=
  { height := 0, width := 0, firstRowShown := 0, rowSelected := 0
    findExpression := "", data := data }

/-- The zero value `table.Model{}` returned by `Find`/`FindNext`/`FindPrevious`
on failure. -/
def zeroModel : Model :=
  { height := 0, width := 0, firstRowShown := 0, rowSelected := 0
    findExpression := "", data := { Matches := [], Distro := "" } }

/-- `Model.SetHeight`. -/
def SetHeight (m : Model) (h : Int) : Model := { m with height := h }

/-- `Model.SetWidth`. -/
def SetWidth (m : Model) (w : Int) : Model := { m with width := w }

/-- `Model.IndexSelected`. -/
def IndexSelected (m : Model) : Int := m.rowSelected

/-- `Model.countRowsShown`. -/
def countRowsShown (m : Model) : Int := m.height - 1

/-- `Model.totalRowCount`. -/
def totalRowCount (m : Model) : Int := (m.data.Matches.length : Int)

/-- `Model.lastRowIndex`. -/
def lastRowIndex (m : Model) : Int := totalRowCount m - 1

/-- `Model.dataWindowEnd`. -/
def dataWindowEnd (m : Model) : Int := m.firstRowShown + countRowsShown m - 1

/-- `m.data.Matches[i]`; out-of-range access (a Go panic) yields the zero
match, but is never reached under the range hypotheses of the theorems. -/
def getMatch (m : Model) (i : Int) : formats.Match :=
  m.data.Matches.getD i.toNat formats.zeroMatch

/-- `filterMatchFound` from internal/triage/table/model.go. -/
def filterMatchFound (mt : formats.Match) (expr : String) : Bool :=
  gostrings.Contains mt.Package.Name expr || gostrings.Contains mt.Vulnerability.ID expr

/-- `Model.updateWindow` from internal/triage/table/model.go. -/
def updateWindow (m : Model) : Model :=
  let newSelectedIndex := m.rowSelected
  let windowFirst := m.firstRowShown
  let windowLast := dataWindowEnd m
  if newSelectedIndex ≥ windowFirst ∧ newSelectedIndex ≤ windowLast then
    m
  else if newSelectedIndex < windowFirst then
    { m with firstRowShown := newSelectedIndex }
  else if newSelectedIndex > windowLast then
    { m with firstRowShown := newSelectedIndex - (countRowsShown m - 1) }
  else
    m

/-- `Model.selectAndShowRow`. -/
def selectAndShowRow (m : Model) (i : Int) : Model :=
  updateWindow { m with rowSelected := i }

/-- `Model.moveUp`. -/
def moveUp (m : Model) : Model :=
  if m.rowSelected = 0 then m
  else selectAndShowRow m (m.rowSelected - 1)

/-- `Model.moveDown`. -/
def moveDown (m : Model) : Model :=
  if m.rowSelected = lastRowIndex m then m
  else selectAndShowRow m (m.rowSelected + 1)

/-- `Model.jumpToStart`. -/
def jumpToStart (m : Model) : Model :=
  selectAndShowRow m 0

/-- `Model.jumpToEnd`. -/
def jumpToEnd (m : Model) : Model :=
  selectAndShowRow m (lastRowIndex m)

/-- `Model.pageUp`. -/
def pageUp (m : Model) : Model :=
  if m.rowSelected > m.firstRowShown then
    { m with rowSelected := m.firstRowShown }
  else
    let newSelectedRow := m.rowSelected - countRowsShown m
    let newSelectedRow := if newSelectedRow < 0 then 0 else newSelectedRow
    selectAndShowRow m newSelectedRow

/-- `Model.pageDown`. -/
def pageDown (m : Model) : Model :=
  let windowEnd := dataWindowEnd m
  if m.rowSelected < windowEnd then
    if windowEnd > lastRowIndex m then
      { m with rowSelected := lastRowIndex m }
    else
      { m with rowSelected := windowEnd }
  else
    let newSelectedRow := m.rowSelected + countRowsShown m
    let newSelectedRow := if newSelectedRow > lastRowIndex m then lastRowIndex m else newSelectedRow
    selectAndShowRow m newSelectedRow

/-- `Model.find`: linear scan from index 0, first matching index or `notFound`.
The accumulator `i` is the index of the head of the remaining list. -/
def findAux (expr : String) : List formats.Match → Int → Int
  | [], _ => notFound
  | mt :: rest, i => if filterMatchFound mt expr then i else findAux expr rest (i + 1)

/-- `Model.find` from internal/triage/table/model.go. -/
def find (m : Model) (expr : String) : Int :=
  findAux expr m.data.Matches 0

/-- One-to-one model of the `for` loop body of `Model.findNext`; `fuel`
bounds the number of iterations, `none` meaning the source loop has not
returned within `fuel` iterations. `i` is the loop variable. -/
def findNextAux (m : Model) (expr : String) : Nat → Int → Option Int
  | 0, _ => none
  | fuel + 1, i =>
    let i1 := i + 1
    let i2 := if i1 > lastRowIndex m then 0 else i1
    if i2 = m.rowSelected then some notFound
    else if filterMatchFound (getMatch m i2) expr then some i2
    else findNextAux m expr fuel i2

/-- One-to-one model of the `for` loop body of `Model.findPrevious`. -/
def findPreviousAux (m : Model) (expr : String) : Nat → Int → Option Int
  | 0, _ => none
  | fuel + 1, i =>
    let i1 := i - 1
    let i2 := if i1 < 0 then lastRowIndex m else i1
    if i2 = m.rowSelected then some notFound
    else if filterMatchFound (getMatch m i2) expr then some i2
    else findPreviousAux m expr fuel i2

/-- `Model.findNext` run with `N` iterations of fuel (proved sufficient
whenever the selected row is in range). -/
def findNext (m : Model) (expr : String) : Option Int :=
  findNextAux m expr m.data.Matches.length m.rowSelected

/-- `Model.findPrevious` run with `N` iterations of fuel. -/
def findPrevious (m : Model) (expr : String) : Option Int :=
  findPreviousAux m expr m.data.Matches.length m.rowSelected

/-- `Model.Find` (public) from internal/triage/table/model.go: the second
component models the Go `error` result (`none` = `nil`). -/
def Find (m : Model) (expr : String) : Model × Option GoErr :=
  let m := { m with findExpression := expr }
  let foundIndex := find m expr
  if foundIndex = notFound then (zeroModel, some GoErr.NoMatchFound)
  else (selectAndShowRow m foundIndex, none)

/-- `Model.FindNext` (public); the outer `Option` is `none` exactly when the
underlying scan loop does not return (which, as proved below, cannot happen
while the selected row is in range). -/
def FindNext (m : Model) : Option (Model × Option GoErr) :=
  match findNext m m.findExpression with
  | none => none
  | some foundIndex =>
    if foundIndex = notFound then some (zeroModel, some GoErr.NoMatchFound)
    else some (selectAndShowRow m foundIndex, none)

/-- `Model.FindPrevious` (public). -/
def FindPrevious (m : Model) : Option (Model × Option GoErr) :=
  match findPrevious m m.findExpression with
  | none => none
  | some foundIndex =>
    if foundIndex = notFound then some (zeroModel, some GoErr.NoMatchFound)
    else some (selectAndShowRow m foundIndex, none)

/-- Number of newline characters in a string: the line count of a block of
rendered output in which every emitted line is `\n`-terminated. -/
def countNL (s : String) : Nat := s.data.count '\n'

/-- `renderCell` from internal/triage/table/model.go, with lipgloss styling
reduced to its text effect: right-padding with spaces to the column width
(`lipgloss.Width` = character count for the plain single-line content used
here; ANSI color sequences contain no newlines and are dropped). -/
def renderCell (content : String) (size : Int) : String :=
  content ++ String.mk (List.replicate (size - (content.length : Int)).toNat ' ')

/-- `renderDataRow` from internal/triage/table/model.go, minus ANSI color
styling (which contributes no newline). -/
def renderDataRow (mt : formats.Match) (isSelected : Bool) : String :=
  let row := renderCell mt.Package.Name 28 ++
    renderCell mt.Package.Version 24 ++
    renderCell mt.Package.Type' 12 ++
    renderCell mt.Vulnerability.ID 20 ++
    renderCell mt.Vulnerability.Severity 12
  let row := if isSelected then "> " ++ row else "  " ++ row
  row ++ "\n"

/-- The `for i := m.firstRowShown; i < m.firstRowShown+countRowsShown; i++`
loop of `renderDataRows`, with `n` the number of remaining iterations and
`i` the loop variable. -/
def renderRowsFrom (m : Model) : Int → Nat → String
  | _, 0 => ""
  | i, n + 1 =>
    (if i > lastRowIndex m then "\n"
     else renderDataRow (getMatch m i) (decide (i = m.rowSelected))) ++
    renderRowsFrom m (i + 1) n

/-- `Model.renderDataRows` from internal/triage/table/model.go: returns the
empty string when the window starts past the last row, otherwise runs the
row loop for `countRowsShown` iterations (zero iterations when that count
is not positive, as for the Go `for` loop). -/
def renderDataRows (m : Model) : String :=
  if m.firstRowShown > lastRowIndex m then ""
  else renderRowsFrom m m.firstRowShown (countRowsShown m).toNat

end table

namespace details

/-- `details.Model` from internal/triage/details/model.go (only the parts the
browser state machine touches: dimensions and the displayed match). -/
structure Model where
  height : Int
  width : Int
  data : formats.Match
deriving DecidableEq, Repr

/-- `details.Model.SetHeight`. -/
def SetHeight (m : Model) (h : Int) : Model := { m with height := h }

/-- `details.Model.SetWidth`. -/
def SetWidth (m : Model) (w : Int) : Model := { m with width := w }

/-- `details.Model.For`. -/
def For (m : Model) (data : formats.Match) : Model := { m with data := data }

end details

namespace triage

/-- `triage.Mode` from the composed browser model. -/
inductive Mode where
  | ModeDataScroll
  | ModeFilterEntry
deriving DecidableEq, Repr

/-- Model of a `tea.Cmd` value as returned by the update functions:
`nil`, `tea.Quit`, or `textinput.Blink`. -/
inductive Cmd where
  | cnone
  | quit
  | blink
deriving DecidableEq, Repr

/-- The input events the browser consumes: a key press (identified by the
string `tea.KeyMsg.String()` returns), Ctrl-C (checked via `msg.Type`
before the string switch), and a terminal resize. -/
inductive TriageMsg where
  | key (s : String)
  | keyCtrlC
  | windowSize (h w : Int)
deriving DecidableEq, Repr

/-- Modelled from the spec: the `bubbles` textinput widget is an external
library (not in src). Only the facets the browser reads are kept: the
committed buffer text (`Value()`), focus, and the cosmetic prompt strings. -/
structure TextInput where
  value : String
  focused : Bool
  prompt : String
  placeholder : String
deriving DecidableEq, Repr

/-- Modelled from the spec: `textinput.Model{}`, the zero value the browser
starts with. -/
def zeroTextInput : TextInput :=
  { value := "", focused := false, prompt := "", placeholder := "" }

/-- `textinput.Model.Focus`. -/
def focusInput (ti : TextInput) : TextInput := { ti with focused := true }

/-- `textinput.Model.Blur`. -/
def blurInput (ti : TextInput) : TextInput := { ti with focused := false }

/-- Modelled from the spec: text editing done by the external textinput
widget (insert a printable character, delete with backspace; no visible
effect while unfocused). None of the theorems below depend on this body. -/
def textinputUpdate (ti : TextInput) (msg : TriageMsg) : TextInput :=
  match msg with
  | .key s =>
    if !ti.focused then ti
    else if s = "backspace" then { ti with value := String.mk ti.value.data.dropLast }
    else if s.length = 1 then { ti with value := ti.value ++ s }
    else ti
  | _ => ti

/-- `newFilterTextInput` from the composed browser model. -/
def newFilterTextInput : TextInput :=
  { value := "", focused := false, prompt := "Find: ", placeholder := "package or vulnerability" }

/-- `triage.model` from the composed browser model (src/unnamed/part_001). -/
structure model where
  height : Int
  width : Int
  data : formats.Normalized
  mode : Mode
  table : table.Model
  filter : TextInput
  showDetails : Bool
  details : details.Model
deriving DecidableEq, Repr

/-- `model.expectedComponentHeights`: returns `(table, details)` heights.
Go `/` on int truncates toward zero, which is `Int.div`. -/
def expectedComponentHeights (m : model) : Int × Int :=
  let t0 : Int := m.height
  let d0 : Int := 0
  let d1 : Int := if m.showDetails then Int.tdiv m.height 2 else d0
  let t1 : Int := if m.showDetails then m.height - d1 else t0
  let t2 : Int := if m.mode = Mode.ModeFilterEntry then t1 - 1 else t1
  (t2, d1)

/-- `model.updateComponentSizes`. -/
def updateComponentSizes (m : model) : model :=
  let hs := expectedComponentHeights m
  { m with
    table := table.SetWidth (table.SetHeight m.table hs.1) m.width
    details := details.SetWidth (details.SetHeight m.details hs.2) m.width }

/-- `table.Model.Update` from internal/triage/table/model.go: key dispatch of
the table component (second return component models the `tea.Cmd`). -/
def tableUpdate (m : table.Model) (msg : TriageMsg) : table.Model × Cmd :=
  match msg with
  | .keyCtrlC => (m, Cmd.quit)
  | .key s =>
    if s = "q" then (m, Cmd.quit)
    else if s = "up" ∨ s = "k" then (table.moveUp m, Cmd.cnone)
    else if s = "down" ∨ s = "j" then (table.moveDown m, Cmd.cnone)
    else if s = "g" then (table.jumpToStart m, Cmd.cnone)
    else if s = "G" then (table.jumpToEnd m, Cmd.cnone)
    else if s = "w" then (table.pageUp m, Cmd.cnone)
    else if s = "z" then (table.pageDown m, Cmd.cnone)
    else (m, Cmd.cnone)
  | .windowSize _ _ => (m, Cmd.cnone)

/-- The statement after the `ModeDataScroll` key switch in `model.Update`:
`m.table, cmd = m.table.Update(msg); return m, cmd` (reached by falling out
of the switch, e.g. via the `break` in the `"n"` case). -/
def tableFallthrough (m : model) (msg : TriageMsg) : model × Cmd :=
  let r := tableUpdate m.table msg
  ({ m with table := r.1 }, r.2)

/-- `model.Update` from the composed browser model (src/unnamed/part_001).
The result is `none` exactly when a search loop inside `FindNext` /
`FindPrevious` does not return (impossible while the table invariants
hold). Non-key, non-resize messages (e.g. blink ticks) are not modelled:
they only touch the external textinput widget. -/
def Update (m : model) (msg : TriageMsg) : Option (model × Cmd) :=
  match msg with
  | .keyCtrlC => some (m, Cmd.quit)
  | .windowSize h w =>
    some (updateComponentSizes { m with height := h, width := w }, Cmd.cnone)
  | .key s =>
    match m.mode with
    | Mode.ModeDataScroll =>
      if s = "q" then some (m, Cmd.quit)
      else if s = "/" then
        let m1 := { m with mode := Mode.ModeFilterEntry, filter := focusInput newFilterTextInput }
        some (updateComponentSizes m1, Cmd.blink)
      else if s = "n" then
        if m.filter.value ≠ "" then
          match table.FindNext m.table with
          | none => none
          | some (t, e) =>
            if e = some table.GoErr.NoMatchFound then some (tableFallthrough m msg)
            else some ({ m with table := t }, Cmd.cnone)
        else some (tableFallthrough m msg)
      else if s = "N" then
        if m.filter.value ≠ "" then
          match table.FindPrevious m.table with
          | none => none
          | some (t, e) =>
            if e = some table.GoErr.NoMatchFound then some (m, Cmd.cnone)
            else some ({ m with table := t }, Cmd.cnone)
        else some (tableFallthrough m msg)
      else if s = "d" then
        some (updateComponentSizes { m with showDetails := !m.showDetails }, Cmd.cnone)
      else some (tableFallthrough m msg)
    | Mode.ModeFilterEntry =>
      if s = "enter" then
        let r := table.Find m.table m.filter.value
        if r.2 = some table.GoErr.NoMatchFound then some (m, Cmd.cnone)
        else
          some (updateComponentSizes
            { m with table := r.1, filter := blurInput m.filter, mode := Mode.ModeDataScroll },
            Cmd.cnone)
      else if s = "esc" then
        some (updateComponentSizes
          { m with filter := blurInput m.filter, mode := Mode.ModeDataScroll }, Cmd.cnone)
      else some ({ m with filter := textinputUpdate m.filter msg }, Cmd.cnone)

end triage

namespace table

/-- Whether the row at (in-range) index `k` matches `expr` under
`filterMatchFound`. -/
def matchAtIndex (m : Model) (expr : String) (k : Nat) : Bool :=
  filterMatchFound (m.data.Matches.getD k formats.zeroMatch) expr

/-- The six navigation operations of the claims about navigation sequences. -/
inductive NavOp where
  | moveUp
  | moveDown
  | jumpToStart
  | jumpToEnd
  | pageUp
  | pageDown
deriving DecidableEq, Repr

/-- Apply one navigation operation. -/
def applyNav (op : NavOp) (m : Model) : Model :=
  match op with
  | .moveUp => moveUp m
  | .moveDown => moveDown m
  | .jumpToStart => jumpToStart m
  | .jumpToEnd => jumpToEnd m
  | .pageUp => pageUp m
  | .pageDown => pageDown m

/-- Apply a sequence of navigation operations, first element first. -/
def applyNavs (ops : List NavOp) (m : Model) : Model :=
  ops.foldl (fun m op => applyNav op m) m

/-- The table operations quantified over by the window invariant claim
(`setHeight` deliberately separate: it is the refuting operation). -/
inductive TableOp where
  | moveUp
  | moveDown
  | jumpToStart
  | jumpToEnd
  | pageUp
  | pageDown
  | find (expr : String)
  | findNextOp
  | findPreviousOp
deriving DecidableEq, Repr

/-- Apply one table operation; `none` when the operation's search loop does
not return (never the case under the proved invariants). Failed searches
yield the model component the caller receives (the zero model). -/
def applyTableOp (op : TableOp) (m : Model) : Option Model :=
  match op with
  | .moveUp => some (moveUp m)
  | .moveDown => some (moveDown m)
  | .jumpToStart => some (jumpToStart m)
  | .jumpToEnd => some (jumpToEnd m)
  | .pageUp => some (pageUp m)
  | .pageDown => some (pageDown m)
  | .find expr => some (Find m expr).1
  | .findNextOp => (FindNext m).map (·.1)
  | .findPreviousOp => (FindPrevious m).map (·.1)

/-- The fields of a match that the table renders, all newline-free (the
rendered table is built of single-text-line cells). -/
def rowFieldsSingleLine (mt : formats.Match) : Prop :=
  countNL mt.Package.Name = 0 ∧ countNL mt.Package.Version = 0 ∧
  countNL mt.Package.Type' = 0 ∧ countNL mt.Vulnerability.ID = 0 ∧
  countNL mt.Vulnerability.Severity = 0

end table

namespace sample

/-- A sample match, as in the spec's example scenario. -/
def mk (n v : String) : formats.Match :=
  { Package := { Name := n, Version := "1.0.0", Type' := "deb", OriginPackageName := "", Locations := [] }
    Vulnerability := { ID := v, Severity := "High", URL := "", Description := "" } }

/-- One-row store. -/
def d1 : formats.Normalized := { Matches := [mk "pkg-a" "CVE-1"], Distro := "" }

/-- The spec's three-row store. -/
def d3 : formats.Normalized :=
  { Matches := [mk "pkg-a" "CVE-1", mk "pkg-b" "CVE-2", mk "pkg-c" "CVE-3"], Distro := "" }

/-- Empty store. -/
def dEmpty : formats.Normalized := { Matches := [], Distro := "" }

/-- The spec's example state: three rows, `windowSize = 2` (height 3). -/
def m3 : table.Model := table.SetHeight (table.New d3) 3

/-- A three-row table whose stored search expression matches no row. -/
def m3z : table.Model := { m3 with findExpression := "zzz" }

/-- A browser model in `ModeDataScroll` whose repeat-search expression
matches no row. -/
def tScroll : triage.model :=
  { height := 10, width := 80, data := d3, mode := triage.Mode.ModeDataScroll
    table := m3z, filter := { triage.zeroTextInput with value := "zzz" }
    showDetails := false, details := { height := 0, width := 0, data := mk "x" "y" } }

/-- The same browser model in `ModeFilterEntry`. -/
def tFilter : triage.model := { tScroll with mode := triage.Mode.ModeFilterEntry }

/-- A `ModeFilterEntry` browser model whose buffer matches row 1. -/
def tFilterHit : triage.model :=
  { tFilter with filter := { triage.zeroTextInput with value := "pkg-b" } }

/-- A browser model with `height = 10` and the detail pane shown, in scroll
mode (the spec's layout example). -/
def tLayout : triage.model := { tScroll with showDetails := true }

/-- A reachable table state refuting the window invariant after `SetHeight`:
three rows, window sized to 3 rows, selection moved to the end, then the
height shrunk to 2 (window size 1) without re-deriving the window. -/
def mC1bad : table.Model :=
  table.SetHeight (table.jumpToEnd (table.SetHeight (table.New d3) 4)) 2

end sample

namespace gostrings

lemma occursIn_nil_left (l : List Char) : occursIn [] l = true := by
  induction l with
  | nil => rfl
  | cons d ds ih => simp [occursIn, leadsIn]

/-- Go `strings.Contains(s, "")` is `true` for every `s`. -/
lemma Contains_empty (s : String) : Contains s "" = true :=
  occursIn_nil_left s.data

end gostrings

namespace table

lemma filterMatchFound_empty (mt : formats.Match) : filterMatchFound mt "" = true := by
  simp [filterMatchFound, gostrings.Contains_empty]

lemma updateWindow_proj (m : Model) :
    (updateWindow m).rowSelected = m.rowSelected ∧ (updateWindow m).data = m.data ∧
    (updateWindow m).height = m.height ∧ (updateWindow m).findExpression = m.findExpression := by
  simp only [updateWindow]
  split_ifs <;> simp

lemma updateWindow_firstRowShown_nonneg (m : Model)
    (h1 : 0 ≤ m.rowSelected) (h2 : 0 ≤ m.firstRowShown) :
    0 ≤ (updateWindow m).firstRowShown := by
  simp only [updateWindow, dataWindowEnd, countRowsShown]
  split_ifs <;> (try simp) <;> omega

/-- After `updateWindow`, the selection lies in the window, provided the
window has at least one row. -/
lemma updateWindow_contains (m : Model) (hsz : 1 ≤ countRowsShown m) :
    (updateWindow m).firstRowShown ≤ m.rowSelected ∧
    m.rowSelected ≤ (updateWindow m).firstRowShown + countRowsShown m - 1 := by
  simp only [countRowsShown] at hsz
  simp only [updateWindow, dataWindowEnd, countRowsShown]
  split_ifs <;> (try simp) <;> omega

lemma selectAndShowRow_proj (m : Model) (i : Int) :
    (selectAndShowRow m i).rowSelected = i ∧ (selectAndShowRow m i).data = m.data ∧
    (selectAndShowRow m i).height = m.height := by
  have h := updateWindow_proj { m with rowSelected := i }
  simpa [selectAndShowRow] using ⟨h.1, h.2.1, h.2.2.1⟩

lemma selectAndShowRow_inv (m : Model) (i : Int) (hi0 : 0 ≤ i)
    (h2 : 0 ≤ m.firstRowShown) :
    0 ≤ (selectAndShowRow m i).firstRowShown := by
  apply updateWindow_firstRowShown_nonneg <;> simpa

/-- One navigation operation preserves the basic range invariant:
selection in `[0, N-1]`, window start nonnegative — provided the window
size is nonnegative (height at least 1). Data and height are untouched. -/
lemma applyNav_inv (op : NavOp) (m : Model)
    (h1 : 0 ≤ m.rowSelected) (h2 : m.rowSelected ≤ lastRowIndex m)
    (h3 : 0 ≤ m.firstRowShown) (h4 : 0 ≤ countRowsShown m) :
    0 ≤ (applyNav op m).rowSelected ∧
    (applyNav op m).rowSelected ≤ lastRowIndex (applyNav op m) ∧
    0 ≤ (applyNav op m).firstRowShown ∧ 0 ≤ countRowsShown (applyNav op m) ∧
    (applyNav op m).data = m.data ∧ (applyNav op m).height = m.height := by
  simp only [lastRowIndex, totalRowCount, countRowsShown] at h2 h4 ⊢
  cases op <;>
    simp only [applyNav, moveUp, moveDown, jumpToStart, jumpToEnd, pageUp, pageDown,
      selectAndShowRow, updateWindow, dataWindowEnd, countRowsShown, lastRowIndex,
      totalRowCount] <;>
    split_ifs <;>
    refine ⟨?_, ?_, ?_, ?_, rfl, rfl⟩ <;>
    (try dsimp only) <;> omega

/-- The range invariant holds after every navigation sequence. -/
lemma applyNavs_inv (ops : List NavOp) (m : Model)
    (h1 : 0 ≤ m.rowSelected) (h2 : m.rowSelected ≤ lastRowIndex m)
    (h3 : 0 ≤ m.firstRowShown) (h4 : 0 ≤ countRowsShown m) :
    0 ≤ (applyNavs ops m).rowSelected ∧
    (applyNavs ops m).rowSelected ≤ lastRowIndex (applyNavs ops m) ∧
    0 ≤ (applyNavs ops m).firstRowShown ∧ 0 ≤ countRowsShown (applyNavs ops m) := by
  induction ops generalizing m with
  | nil => exact ⟨h1, h2, h3, h4⟩
  | cons op ops ih =>
    have h := applyNav_inv op m h1 h2 h3 h4
    simpa [applyNavs, List.foldl_cons] using ih (applyNav op m) h.1 h.2.1 h.2.2.1 h.2.2.2.1

/-- After `selectAndShowRow` the selection lies inside the window, as long
as the window shows at least one row; no assumption on the target index is
needed. -/
lemma selectAndShowRow_contains (m : Model) (i : Int) (hsz : 1 ≤ countRowsShown m) :
    (selectAndShowRow m i).firstRowShown ≤ (selectAndShowRow m i).rowSelected ∧
    (selectAndShowRow m i).rowSelected ≤
      (selectAndShowRow m i).firstRowShown + countRowsShown (selectAndShowRow m i) - 1 := by
  simp only [countRowsShown] at hsz
  simp only [selectAndShowRow, updateWindow, dataWindowEnd, countRowsShown]
  split_ifs <;> (try dsimp only) <;> omega

/-- One table operation (navigation or search — `setHeight` excluded)
preserves the window-contains-selection invariant, given the basic range
invariant and a window of at least one row. A failed search hands back the
zero model, for which the conclusion's `windowSize > 0` guard is false. -/
lemma applyTableOp_contains (op : TableOp) (m : Model)
    (hc1 : m.firstRowShown ≤ m.rowSelected)
    (hc2 : m.rowSelected ≤ m.firstRowShown + countRowsShown m - 1)
    (h1 : 0 ≤ m.rowSelected) (h2 : m.rowSelected ≤ lastRowIndex m)
    (hsz : 1 ≤ countRowsShown m) :
    ∀ m', applyTableOp op m = some m' →
      0 < countRowsShown m' → 0 < totalRowCount m' →
      m'.firstRowShown ≤ m'.rowSelected ∧
      m'.rowSelected ≤ m'.firstRowShown + countRowsShown m' - 1 := by
  cases op with
  | moveUp =>
    intro m' heq _ _
    injection heq with heq
    subst heq
    simp only [moveUp, selectAndShowRow, updateWindow, dataWindowEnd, countRowsShown,
      lastRowIndex, totalRowCount] at hc1 hc2 h1 h2 hsz ⊢
    split_ifs <;> (try dsimp only) <;> omega
  | moveDown =>
    intro m' heq _ _
    injection heq with heq
    subst heq
    simp only [moveDown, selectAndShowRow, updateWindow, dataWindowEnd, countRowsShown,
      lastRowIndex, totalRowCount] at hc1 hc2 h1 h2 hsz ⊢
    split_ifs <;> (try dsimp only) <;> omega
  | jumpToStart =>
    intro m' heq _ _
    injection heq with heq
    subst heq
    simp only [jumpToStart, selectAndShowRow, updateWindow, dataWindowEnd, countRowsShown,
      lastRowIndex, totalRowCount] at hc1 hc2 h1 h2 hsz ⊢
    split_ifs <;> (try dsimp only) <;> omega
  | jumpToEnd =>
    intro m' heq _ _
    injection heq with heq
    subst heq
    simp only [jumpToEnd, selectAndShowRow, updateWindow, dataWindowEnd, countRowsShown,
      lastRowIndex, totalRowCount] at hc1 hc2 h1 h2 hsz ⊢
    split_ifs <;> (try dsimp only) <;> omega
  | pageUp =>
    intro m' heq _ _
    injection heq with heq
    subst heq
    simp only [pageUp, selectAndShowRow, updateWindow, dataWindowEnd, countRowsShown,
      lastRowIndex, totalRowCount] at hc1 hc2 h1 h2 hsz ⊢
    split_ifs <;> (try dsimp only) <;> omega
  | pageDown =>
    intro m' heq _ _
    injection heq with heq
    subst heq
    simp only [pageDown, selectAndShowRow, updateWindow, dataWindowEnd, countRowsShown,
      lastRowIndex, totalRowCount] at hc1 hc2 h1 h2 hsz ⊢
    split_ifs <;> (try dsimp only) <;> omega
  | find expr =>
    intro m' heq hg1 _
    simp only [applyTableOp, Find] at heq
    split_ifs at heq with h
    · injection heq with heq
      subst heq
      simp [countRowsShown, zeroModel] at hg1
    · injection heq with heq
      subst heq
      exact selectAndShowRow_contains _ _ hsz
  | findNextOp =>
    intro m' heq hg1 _
    cases hscan : findNext m m.findExpression with
    | none =>
      simp only [applyTableOp, FindNext, hscan, Option.map_none'] at heq
      exact absurd heq (by simp)
    | some i =>
      simp only [applyTableOp, FindNext, hscan] at heq
      split_ifs at heq with h
      · simp only [Option.map_some'] at heq
        injection heq with heq
        subst heq
        simp [countRowsShown, zeroModel] at hg1
      · simp only [Option.map_some'] at heq
        injection heq with heq
        subst heq
        exact selectAndShowRow_contains _ _ hsz
  | findPreviousOp =>
    intro m' heq hg1 _
    cases hscan : findPrevious m m.findExpression with
    | none =>
      simp only [applyTableOp, FindPrevious, hscan, Option.map_none'] at heq
      exact absurd heq (by simp)
    | some i =>
      simp only [applyTableOp, FindPrevious, hscan] at heq
      split_ifs at heq with h
      · simp only [Option.map_some'] at heq
        injection heq with heq
        subst heq
        simp [countRowsShown, zeroModel] at hg1
      · simp only [Option.map_some'] at heq
        injection heq with heq
        subst heq
        exact selectAndShowRow_contains _ _ hsz

/-- Characterization of the linear scan `findAux`: either nothing matches
and the result is `notFound`, or the result is the offset of the first
matching element. -/
lemma findAux_char (expr : String) : ∀ (l : List formats.Match) (i : Int),
    (findAux expr l i = notFound ∧
      ∀ k : Nat, k < l.length → filterMatchFound (l.getD k formats.zeroMatch) expr = false)
  ∨ (∃ k : Nat, k < l.length ∧ findAux expr l i = i + (k : Int) ∧
      filterMatchFound (l.getD k formats.zeroMatch) expr = true ∧
      ∀ j : Nat, j < k → filterMatchFound (l.getD j formats.zeroMatch) expr = false) := by
  intro l
  induction l with
  | nil =>
    intro i
    left
    exact ⟨rfl, fun k hk => by simp at hk⟩
  | cons mt rest ih =>
    intro i
    by_cases hm : filterMatchFound mt expr = true
    · right
      exact ⟨0, by simp, by simp [findAux, hm], by simpa using hm, fun j hj => by omega⟩
    · rcases ih (i + 1) with ⟨he, hall⟩ | ⟨k, hk, he, hmk, hlt⟩
      · left
        refine ⟨by simp [findAux, hm, he], ?_⟩
        intro k hk
        cases k with
        | zero => simpa using eq_false_of_ne_true hm
        | succ j => simpa using hall j (by simpa using hk)
      · right
        refine ⟨k + 1, by simpa using hk, ?_, by simpa using hmk, ?_⟩
        · rw [show findAux expr (mt :: rest) i = findAux expr rest (i + 1) from by
            simp [findAux, hm], he]
          push_cast
          ring
        · intro j hj
          cases j with
          | zero => simpa using eq_false_of_ne_true hm
          | succ j' => simpa using hlt j' (by omega)

end table


namespace table

lemma getMatch_natCast (m : Model) (k : Nat) :
    getMatch m (k : Int) = m.data.Matches.getD k formats.zeroMatch := by
  simp [getMatch]

lemma findNextAux_step_nowrap (m : Model) (expr : String) (fuel : Nat) (i : Int)
    (h : ¬(i + 1 > lastRowIndex m)) :
    findNextAux m expr (fuel + 1) i =
      if i + 1 = m.rowSelected then some notFound
      else if filterMatchFound (getMatch m (i + 1)) expr then some (i + 1)
      else findNextAux m expr fuel (i + 1) := by
  simp only [findNextAux, if_neg h]

lemma findNextAux_step_wrap (m : Model) (expr : String) (fuel : Nat) (i : Int)
    (h : i + 1 > lastRowIndex m) :
    findNextAux m expr (fuel + 1) i =
      if (0 : Int) = m.rowSelected then some notFound
      else if filterMatchFound (getMatch m 0) expr then some 0
      else findNextAux m expr fuel 0 := by
  simp only [findNextAux, if_pos h]

/-- Forward scan, phase below the selection: from position `j` with
`j + d + 1 = s`, the loop inspects `j+1, …, s-1` and then stops at `s`. -/
lemma findNextAux_phaseB (m : Model) (expr : String) (s : Nat)
    (hs : m.rowSelected = (s : Int)) (hsN : s < m.data.Matches.length) :
    ∀ (d j fuel : Nat), j + d + 1 = s → d + 1 ≤ fuel →
      (∃ r, findNextAux m expr fuel (j : Int) = some r) ∧
      (findNextAux m expr fuel (j : Int) = some notFound ↔
        ∀ k : Nat, j + 1 ≤ k → k < s → matchAtIndex m expr k = false) := by
  intro d
  induction d with
  | zero =>
    intro j fuel hj hfuel
    obtain ⟨f, rfl⟩ : ∃ f, fuel = f + 1 := ⟨fuel - 1, by omega⟩
    have hnw : ¬ ((j : Int) + 1 > lastRowIndex m) := by
      simp only [lastRowIndex, totalRowCount]; omega
    rw [findNextAux_step_nowrap m expr f (j : Int) hnw]
    have hsel : ((j : Int) + 1 = m.rowSelected) := by rw [hs]; omega
    rw [if_pos hsel]
    exact ⟨⟨_, rfl⟩, by constructor <;> intro _ <;> first | (intro k hk1 hk2; omega) | rfl⟩
  | succ d ih =>
    intro j fuel hj hfuel
    obtain ⟨f, rfl⟩ : ∃ f, fuel = f + 1 := ⟨fuel - 1, by omega⟩
    have hnw : ¬ ((j : Int) + 1 > lastRowIndex m) := by
      simp only [lastRowIndex, totalRowCount]; omega
    rw [findNextAux_step_nowrap m expr f (j : Int) hnw]
    have hsel : ¬ ((j : Int) + 1 = m.rowSelected) := by rw [hs]; omega
    rw [if_neg hsel]
    have hcast : ((j : Int) + 1) = ((j + 1 : Nat) : Int) := by omega
    rw [hcast, getMatch_natCast]
    by_cases hm : filterMatchFound (m.data.Matches.getD (j + 1) formats.zeroMatch) expr = true
    · rw [if_pos hm]
      refine ⟨⟨_, rfl⟩, ?_, ?_⟩
      · intro habs
        injection habs with habs
        simp only [notFound] at habs
        omega
      · intro hall
        have := hall (j + 1) le_rfl (by omega)
        simp only [matchAtIndex, hm] at this
        exact absurd this (by simp)
    · have hm' : matchAtIndex m expr (j + 1) = false := by
        simp only [matchAtIndex]
        exact eq_false_of_ne_true hm
      rw [if_neg hm]
      have hB := ih (j + 1) f (by omega) (by omega)
      refine ⟨hB.1, ?_⟩
      rw [hB.2]
      constructor
      · intro hall k hk1 hk2
        by_cases hkj : k = j + 1
        · exact hkj ▸ hm'
        · exact hall k (by omega) hk2
      · intro hall k hk1 hk2
        exact hall k (by omega) hk2

/-- Forward scan, phase at or above the selection: from position `j` with
`s ≤ j` and `j + c + 1 = N`, the loop inspects `j+1, …, N-1`, wraps to `0`,
inspects `0, …, s-1` and stops at `s`. -/
lemma findNextAux_phaseA (m : Model) (expr : String) (s : Nat)
    (hs : m.rowSelected = (s : Int)) (hsN : s < m.data.Matches.length) :
    ∀ (c j fuel : Nat), j + c + 1 = m.data.Matches.length → s ≤ j → c + 1 + s ≤ fuel →
      (∃ r, findNextAux m expr fuel (j : Int) = some r) ∧
      (findNextAux m expr fuel (j : Int) = some notFound ↔
        ((∀ k : Nat, j + 1 ≤ k → k < m.data.Matches.length → matchAtIndex m expr k = false) ∧
         (∀ k : Nat, k < s → matchAtIndex m expr k = false))) := by
  intro c
  induction c with
  | zero =>
    intro j fuel hj hsj hfuel
    obtain ⟨f, rfl⟩ : ∃ f, fuel = f + 1 := ⟨fuel - 1, by omega⟩
    have hw : ((j : Int) + 1 > lastRowIndex m) := by
      simp only [lastRowIndex, totalRowCount]; omega
    rw [findNextAux_step_wrap m expr f (j : Int) hw]
    by_cases hs0 : s = 0
    · have hsel : ((0 : Int) = m.rowSelected) := by rw [hs, hs0]; norm_num
      rw [if_pos hsel]
      refine ⟨⟨_, rfl⟩, ?_, fun _ => rfl⟩
      intro _
      exact ⟨fun k hk1 hk2 => by omega, fun k hk => by omega⟩
    · have hsel : ¬ ((0 : Int) = m.rowSelected) := by rw [hs]; omega
      rw [if_neg hsel]
      have hg0 : getMatch m (0 : Int) = m.data.Matches.getD 0 formats.zeroMatch := by
        simp [getMatch]
      rw [hg0]
      by_cases hm : filterMatchFound (m.data.Matches.getD 0 formats.zeroMatch) expr = true
      · rw [if_pos hm]
        refine ⟨⟨_, rfl⟩, ?_, ?_⟩
        · intro habs
          injection habs with habs
          simp only [notFound] at habs
          omega
        · intro hall
          have := hall.2 0 (by omega)
          simp only [matchAtIndex, hm] at this
          exact absurd this (by simp)
      · have hm' : matchAtIndex m expr 0 = false := by
          simp only [matchAtIndex]
          exact eq_false_of_ne_true hm
        rw [if_neg hm]
        have hB := findNextAux_phaseB m expr s hs hsN (s - 1) 0 f (by omega) (by omega)
        have hcast0 : ((0 : Nat) : Int) = (0 : Int) := rfl
        rw [hcast0] at hB
        refine ⟨hB.1, ?_⟩
        rw [hB.2]
        constructor
        · intro hall
          refine ⟨fun k hk1 hk2 => by omega, fun k hk => ?_⟩
          by_cases hk0 : k = 0
          · exact hk0 ▸ hm'
          · exact hall k (by omega) hk
        · intro hall k hk1 hk2
          exact hall.2 k hk2
  | succ c ih =>
    intro j fuel hj hsj hfuel
    obtain ⟨f, rfl⟩ : ∃ f, fuel = f + 1 := ⟨fuel - 1, by omega⟩
    have hnw : ¬ ((j : Int) + 1 > lastRowIndex m) := by
      simp only [lastRowIndex, totalRowCount]; omega
    rw [findNextAux_step_nowrap m expr f (j : Int) hnw]
    have hsel : ¬ ((j : Int) + 1 = m.rowSelected) := by rw [hs]; omega
    rw [if_neg hsel]
    have hcast : ((j : Int) + 1) = ((j + 1 : Nat) : Int) := by omega
    rw [hcast, getMatch_natCast]
    by_cases hm : filterMatchFound (m.data.Matches.getD (j + 1) formats.zeroMatch) expr = true
    · rw [if_pos hm]
      refine ⟨⟨_, rfl⟩, ?_, ?_⟩
      · intro habs
        injection habs with habs
        simp only [notFound] at habs
        omega
      · intro hall
        have := hall.1 (j + 1) le_rfl (by omega)
        simp only [matchAtIndex, hm] at this
        exact absurd this (by simp)
    · have hm' : matchAtIndex m expr (j + 1) = false := by
        simp only [matchAtIndex]
        exact eq_false_of_ne_true hm
      rw [if_neg hm]
      have hA := ih (j + 1) f (by omega) (by omega) (by omega)
      refine ⟨hA.1, ?_⟩
      rw [hA.2]
      constructor
      · intro hall
        refine ⟨fun k hk1 hk2 => ?_, hall.2⟩
        by_cases hkj : k = j + 1
        · exact hkj ▸ hm'
        · exact hall.1 k (by omega) hk2
      · intro hall
        exact ⟨fun k hk1 hk2 => hall.1 k (by omega) hk2, hall.2⟩

/-- Termination and NotFound-characterization of the forward circular scan
started at the selected row, for any fuel of at least `N` iterations. -/
lemma findNextAux_main (m : Model) (expr : String) (s : Nat)
    (hs : m.rowSelected = (s : Int)) (hsN : s < m.data.Matches.length)
    (fuel : Nat) (hfuel : m.data.Matches.length ≤ fuel) :
    (∃ r, findNextAux m expr fuel m.rowSelected = some r) ∧
    (findNextAux m expr fuel m.rowSelected = some notFound ↔
      ∀ k : Nat, k < m.data.Matches.length → k ≠ s → matchAtIndex m expr k = false) := by
  have hA := findNextAux_phaseA m expr s hs hsN (m.data.Matches.length - s - 1) s fuel
    (by omega) le_rfl (by omega)
  rw [hs]
  refine ⟨hA.1, ?_⟩
  rw [hA.2]
  constructor
  · intro hall k hk1 hk2
    by_cases hks : k < s
    · exact hall.2 k hks
    · exact hall.1 k (by omega) hk1
  · intro hall
    exact ⟨fun k hk1 hk2 => hall k hk2 (by omega), fun k hk => hall k (by omega) (by omega)⟩

end table

namespace table

lemma findPreviousAux_step_nowrap (m : Model) (expr : String) (fuel : Nat) (i : Int)
    (h : ¬(i - 1 < 0)) :
    findPreviousAux m expr (fuel + 1) i =
      if i - 1 = m.rowSelected then some notFound
      else if filterMatchFound (getMatch m (i - 1)) expr then some (i - 1)
      else findPreviousAux m expr fuel (i - 1) := by
  simp only [findPreviousAux, if_neg h]

lemma findPreviousAux_step_wrap (m : Model) (expr : String) (fuel : Nat) (i : Int)
    (h : i - 1 < 0) :
    findPreviousAux m expr (fuel + 1) i =
      if lastRowIndex m = m.rowSelected then some notFound
      else if filterMatchFound (getMatch m (lastRowIndex m)) expr then some (lastRowIndex m)
      else findPreviousAux m expr fuel (lastRowIndex m) := by
  simp only [findPreviousAux, if_pos h]

/-- Backward scan, phase above the selection: from position `j` with
`j = s + d + 1` and `j < N`, the loop inspects `j-1, …, s+1` and then
stops at `s`. -/
lemma findPreviousAux_phaseB (m : Model) (expr : String) (s : Nat)
    (hs : m.rowSelected = (s : Int)) (hsN : s < m.data.Matches.length) :
    ∀ (d j fuel : Nat), j = s + d + 1 → j < m.data.Matches.length → d + 1 ≤ fuel →
      (∃ r, findPreviousAux m expr fuel (j : Int) = some r) ∧
      (findPreviousAux m expr fuel (j : Int) = some notFound ↔
        ∀ k : Nat, s + 1 ≤ k → k < j → matchAtIndex m expr k = false) := by
  intro d
  induction d with
  | zero =>
    intro j fuel hj hjN hfuel
    obtain ⟨f, rfl⟩ : ∃ f, fuel = f + 1 := ⟨fuel - 1, by omega⟩
    have hnw : ¬ ((j : Int) - 1 < 0) := by omega
    rw [findPreviousAux_step_nowrap m expr f (j : Int) hnw]
    have hsel : ((j : Int) - 1 = m.rowSelected) := by rw [hs]; omega
    rw [if_pos hsel]
    exact ⟨⟨_, rfl⟩, by constructor <;> intro _ <;> first | (intro k hk1 hk2; omega) | rfl⟩
  | succ d ih =>
    intro j fuel hj hjN hfuel
    obtain ⟨f, rfl⟩ : ∃ f, fuel = f + 1 := ⟨fuel - 1, by omega⟩
    have hnw : ¬ ((j : Int) - 1 < 0) := by omega
    rw [findPreviousAux_step_nowrap m expr f (j : Int) hnw]
    have hsel : ¬ ((j : Int) - 1 = m.rowSelected) := by rw [hs]; omega
    rw [if_neg hsel]
    have hcast : ((j : Int) - 1) = ((j - 1 : Nat) : Int) := by omega
    rw [hcast, getMatch_natCast]
    by_cases hm : filterMatchFound (m.data.Matches.getD (j - 1) formats.zeroMatch) expr = true
    · rw [if_pos hm]
      refine ⟨⟨_, rfl⟩, ?_, ?_⟩
      · intro habs
        injection habs with habs
        simp only [notFound] at habs
        omega
      · intro hall
        have := hall (j - 1) (by omega) (by omega)
        simp only [matchAtIndex, hm] at this
        exact absurd this (by simp)
    · have hm' : matchAtIndex m expr (j - 1) = false := by
        simp only [matchAtIndex]
        exact eq_false_of_ne_true hm
      rw [if_neg hm]
      have hB := ih (j - 1) f (by omega) (by omega) (by omega)
      refine ⟨hB.1, ?_⟩
      rw [hB.2]
      constructor
      · intro hall k hk1 hk2
        by_cases hkj : k = j - 1
        · exact hkj ▸ hm'
        · exact hall k hk1 (by omega)
      · intro hall k hk1 hk2
        exact hall k hk1 (by omega)

/-- Backward scan, phase at or below the selection: from position `j ≤ s`,
the loop inspects `j-1, …, 0`, wraps to `N-1`, inspects `N-1, …, s+1` and
stops at `s`. -/
lemma findPreviousAux_phaseA (m : Model) (expr : String) (s : Nat)
    (hs : m.rowSelected = (s : Int)) (hsN : s < m.data.Matches.length) :
    ∀ (j fuel : Nat), j ≤ s → j + 1 + (m.data.Matches.length - 1 - s) ≤ fuel →
      (∃ r, findPreviousAux m expr fuel (j : Int) = some r) ∧
      (findPreviousAux m expr fuel (j : Int) = some notFound ↔
        ((∀ k : Nat, k < j → matchAtIndex m expr k = false) ∧
         (∀ k : Nat, s + 1 ≤ k → k < m.data.Matches.length → matchAtIndex m expr k = false))) := by
  intro j
  induction j with
  | zero =>
    intro fuel hj hfuel
    obtain ⟨f, rfl⟩ : ∃ f, fuel = f + 1 := ⟨fuel - 1, by omega⟩
    have hw : (((0 : Nat) : Int) - 1 < 0) := by omega
    rw [findPreviousAux_step_wrap m expr f ((0 : Nat) : Int) hw]
    by_cases hstop : s = m.data.Matches.length - 1
    · have hsel : (lastRowIndex m = m.rowSelected) := by
        simp only [lastRowIndex, totalRowCount]; rw [hs]; omega
      rw [if_pos hsel]
      refine ⟨⟨_, rfl⟩, ?_, fun _ => rfl⟩
      intro _
      exact ⟨fun k hk => by omega, fun k hk1 hk2 => by omega⟩
    · have hsel : ¬ (lastRowIndex m = m.rowSelected) := by
        simp only [lastRowIndex, totalRowCount]; rw [hs]; omega
      rw [if_neg hsel]
      have hcast : lastRowIndex m = ((m.data.Matches.length - 1 : Nat) : Int) := by
        simp only [lastRowIndex, totalRowCount]; omega
      rw [hcast, getMatch_natCast]
      by_cases hm : filterMatchFound
          (m.data.Matches.getD (m.data.Matches.length - 1) formats.zeroMatch) expr = true
      · rw [if_pos hm]
        refine ⟨⟨_, rfl⟩, ?_, ?_⟩
        · intro habs
          injection habs with habs
          simp only [notFound] at habs
          omega
        · intro hall
          have := hall.2 (m.data.Matches.length - 1) (by omega) (by omega)
          simp only [matchAtIndex, hm] at this
          exact absurd this (by simp)
      · have hm' : matchAtIndex m expr (m.data.Matches.length - 1) = false := by
          simp only [matchAtIndex]
          exact eq_false_of_ne_true hm
        rw [if_neg hm]
        have hB := findPreviousAux_phaseB m expr s hs hsN
          (m.data.Matches.length - s - 2) (m.data.Matches.length - 1) f
          (by omega) (by omega) (by omega)
        refine ⟨hB.1, ?_⟩
        rw [hB.2]
        constructor
        · intro hall
          refine ⟨fun k hk => by omega, fun k hk1 hk2 => ?_⟩
          by_cases hkl : k = m.data.Matches.length - 1
          · exact hkl ▸ hm'
          · exact hall k hk1 (by omega)
        · intro hall k hk1 hk2
          exact hall.2 k hk1 (by omega)
  | succ j ih =>
    intro fuel hj hfuel
    obtain ⟨f, rfl⟩ : ∃ f, fuel = f + 1 := ⟨fuel - 1, by omega⟩
    have hnw : ¬ (((j + 1 : Nat) : Int) - 1 < 0) := by omega
    rw [findPreviousAux_step_nowrap m expr f ((j + 1 : Nat) : Int) hnw]
    have hsel : ¬ (((j + 1 : Nat) : Int) - 1 = m.rowSelected) := by rw [hs]; omega
    rw [if_neg hsel]
    have hcast : (((j + 1 : Nat) : Int) - 1) = ((j : Nat) : Int) := by omega
    rw [hcast, getMatch_natCast]
    by_cases hm : filterMatchFound (m.data.Matches.getD j formats.zeroMatch) expr = true
    · rw [if_pos hm]
      refine ⟨⟨_, rfl⟩, ?_, ?_⟩
      · intro habs
        injection habs with habs
        simp only [notFound] at habs
        omega
      · intro hall
        have := hall.1 j (by omega)
        simp only [matchAtIndex, hm] at this
        exact absurd this (by simp)
    · have hm' : matchAtIndex m expr j = false := by
        simp only [matchAtIndex]
        exact eq_false_of_ne_true hm
      rw [if_neg hm]
      have hA := ih f (by omega) (by omega)
      refine ⟨hA.1, ?_⟩
      rw [hA.2]
      constructor
      · intro hall
        refine ⟨fun k hk => ?_, hall.2⟩
        by_cases hkj : k = j
        · exact hkj ▸ hm'
        · exact hall.1 k (by omega)
      · intro hall
        exact ⟨fun k hk => hall.1 k (by omega), hall.2⟩

/-- Termination and NotFound-characterization of the backward circular scan
started at the selected row, for any fuel of at least `N` iterations. -/
lemma findPreviousAux_main (m : Model) (expr : String) (s : Nat)
    (hs : m.rowSelected = (s : Int)) (hsN : s < m.data.Matches.length)
    (fuel : Nat) (hfuel : m.data.Matches.length ≤ fuel) :
    (∃ r, findPreviousAux m expr fuel m.rowSelected = some r) ∧
    (findPreviousAux m expr fuel m.rowSelected = some notFound ↔
      ∀ k : Nat, k < m.data.Matches.length → k ≠ s → matchAtIndex m expr k = false) := by
  have hA := findPreviousAux_phaseA m expr s hs hsN s fuel le_rfl (by omega)
  rw [hs]
  refine ⟨hA.1, ?_⟩
  rw [hA.2]
  constructor
  · intro hall k hk1 hk2
    by_cases hks : k < s
    · exact hall.1 k hks
    · exact hall.2 k (by omega) hk1
  · intro hall
    exact ⟨fun k hk => hall k (by omega) (by omega), fun k hk1 hk2 => hall k hk2 (by omega)⟩

end table

namespace table

lemma countNL_append (s t : String) : countNL (s ++ t) = countNL s + countNL t := by
  simp [countNL, String.data_append, List.count_append]

lemma countNL_renderCell (content : String) (size : Int) :
    countNL (renderCell content size) = countNL content := by
  simp [renderCell, countNL_append, countNL, List.count_replicate]

lemma countNL_renderDataRow (mt : formats.Match) (b : Bool) (h : rowFieldsSingleLine mt) :
    countNL (renderDataRow mt b) = 1 := by
  obtain ⟨h1, h2, h3, h4, h5⟩ := h
  cases b <;>
    simp [renderDataRow, countNL_append, countNL_renderCell, h1, h2, h3, h4, h5,
      show countNL "> " = 0 from by decide, show countNL "  " = 0 from by decide,
      show countNL "\n" = 1 from by decide]

lemma countNL_renderRowsFrom (m : Model)
    (hf : ∀ mt ∈ m.data.Matches, rowFieldsSingleLine mt) :
    ∀ (n : Nat) (i : Int), 0 ≤ i → countNL (renderRowsFrom m i n) = n := by
  intro n
  induction n with
  | zero => intro i _; rfl
  | succ n ih =>
    intro i hi
    rw [renderRowsFrom, countNL_append]
    by_cases hib : i > lastRowIndex m
    · rw [if_pos hib, ih (i + 1) (by omega)]
      have hone : countNL "\n" = 1 := by decide
      omega
    · rw [if_neg hib]
      have hlt : i.toNat < m.data.Matches.length := by
        simp only [lastRowIndex, totalRowCount] at hib
        omega
      have hmem : getMatch m i ∈ m.data.Matches := by
        simp only [getMatch]
        rw [List.getD_eq_getElem _ _ hlt]
        exact List.getElem_mem hlt
      rw [countNL_renderDataRow _ _ (hf _ hmem), ih (i + 1) (by omega)]
      omega

end table

/-- C1 (counterexample): the claim quantifies over `setHeight` too, but
`SetHeight` does not re-derive the window. From the initial state over the
three-row store, size the window to 3 rows, jump to the end, then shrink
the height to 2: the resulting reachable state has `windowSize = 1 > 0`,
`N = 3 > 0`, yet `selectedIndex = 2` lies outside the window `[0, 0]`. -/
theorem C1_counterexample :
    0 < table.countRowsShown sample.mC1bad ∧ 0 < table.totalRowCount sample.mC1bad ∧
    sample.mC1bad.rowSelected = 2 ∧ sample.mC1bad.firstRowShown = 0 ∧
    ¬ (sample.mC1bad.rowSelected ≤
        sample.mC1bad.firstRowShown + table.countRowsShown sample.mC1bad - 1) := by
  decide

/-- C1 (amended): window-contains-selection is preserved by every
navigation and search operation (moveUp, moveDown, jumpToStart, jumpToEnd,
pageUp, pageDown, find, findNext, findPrevious): from any state satisfying
the basic range invariant together with window-contains-selection and a
positive window size, the state after the operation again satisfies
`windowStart ≤ selectedIndex ≤ windowStart + windowSize - 1` whenever its
`windowSize > 0` and `N > 0`. `setHeight` must be excluded, since it does
not re-derive the window (see the counterexample). -/
theorem C1_window_contains_selection_amended (op : table.TableOp) (m : table.Model)
    (hc1 : m.firstRowShown ≤ m.rowSelected)
    (hc2 : m.rowSelected ≤ m.firstRowShown + table.countRowsShown m - 1)
    (h1 : 0 ≤ m.rowSelected) (h2 : m.rowSelected ≤ table.lastRowIndex m)
    (hsz : 1 ≤ table.countRowsShown m) :
    ∀ m', table.applyTableOp op m = some m' →
      0 < table.countRowsShown m' → 0 < table.totalRowCount m' →
      m'.firstRowShown ≤ m'.rowSelected ∧
      m'.rowSelected ≤ m'.firstRowShown + table.countRowsShown m' - 1 :=
  table.applyTableOp_contains op m hc1 hc2 h1 h2 hsz

theorem C1_witness :
    (table.moveDown sample.m3).firstRowShown ≤ (table.moveDown sample.m3).rowSelected ∧
    (table.moveDown sample.m3).rowSelected ≤
      (table.moveDown sample.m3).firstRowShown + table.countRowsShown (table.moveDown sample.m3) - 1 :=
  C1_window_contains_selection_amended table.TableOp.moveDown sample.m3
    (by decide) (by decide) (by decide) (by decide) (by decide)
    (table.moveDown sample.m3) rfl (by decide) (by decide)

/-- C2 (counterexample): applied literally to the initial state produced by
`table.New` (whose height is the Go zero value 0, making
`countRowsShown = -1`), a single `pageDown` on a one-row list moves the
selection to −1, outside `[0, N-1]` with `N = 1 > 0`. -/
theorem C2_counterexample :
    (table.pageDown (table.New sample.d1)).rowSelected = -1 ∧
    sample.d1.Matches.length = 1 := by
  decide

/-- C2 (amended): once the table has been given a height of at least 1
(window size at least 0) — as happens on the first resize event — every
finite sequence of navigation operations applied to the initial state
keeps `selectedIndex ∈ [0, N-1]` (N > 0) after every step, and the
boundary operations are no-ops: `moveUp` at 0 and `moveDown` at `N-1`
return the state unchanged. From the un-sized initial state (height 0),
`pageUp`/`pageDown` can leave the range (see the counterexample). -/
theorem C2_selection_in_range_amended (data : formats.Normalized) (h : Int)
    (hh : 1 ≤ h) (hN : 0 < data.Matches.length) (ops : List table.NavOp) :
    ∀ m', table.applyNavs ops (table.SetHeight (table.New data) h) = m' →
      (0 ≤ m'.rowSelected ∧ m'.rowSelected ≤ table.lastRowIndex m') ∧
      (m'.rowSelected = 0 → table.moveUp m' = m') ∧
      (m'.rowSelected = table.lastRowIndex m' → table.moveDown m' = m') := by
  intro m' heq
  subst heq
  have hinv := table.applyNavs_inv ops (table.SetHeight (table.New data) h)
    (by simp [table.New, table.SetHeight])
    (by simp [table.New, table.SetHeight, table.lastRowIndex, table.totalRowCount]; omega)
    (by simp [table.New, table.SetHeight])
    (by simp [table.New, table.SetHeight, table.countRowsShown]; omega)
  refine ⟨⟨hinv.1, hinv.2.1⟩, ?_, ?_⟩
  · intro hr
    simp [table.moveUp, hr]
  · intro hr
    simp [table.moveDown, hr]

theorem C2_witness :
    0 ≤ (table.applyNavs [table.NavOp.moveDown, table.NavOp.pageDown]
          (table.SetHeight (table.New sample.d3) 3)).rowSelected ∧
    (table.applyNavs [table.NavOp.moveDown, table.NavOp.pageDown]
        (table.SetHeight (table.New sample.d3) 3)).rowSelected ≤
      table.lastRowIndex (table.applyNavs [table.NavOp.moveDown, table.NavOp.pageDown]
        (table.SetHeight (table.New sample.d3) 3)) :=
  (C2_selection_in_range_amended sample.d3 3 (by norm_num) (by decide)
    [table.NavOp.moveDown, table.NavOp.pageDown] _ rfl).1

/-- C3: for a selected row in `[0, N-1]`, both circular scans terminate
within `N` loop iterations (the fuel passed here is exactly `N`, so at
most `N` row comparisons happen), and they return `notFound` exactly when
no index other than the selected one matches the expression — in
particular when zero rows or exactly one row (the selected one) match. -/
theorem C3_search_termination (m : table.Model) (expr : String)
    (h0 : 0 ≤ m.rowSelected) (h1 : m.rowSelected ≤ table.lastRowIndex m) :
    ((∃ r, table.findNextAux m expr m.data.Matches.length m.rowSelected = some r) ∧
      (table.findNextAux m expr m.data.Matches.length m.rowSelected = some table.notFound ↔
        ∀ k : Nat, k < m.data.Matches.length → (k : Int) ≠ m.rowSelected →
          table.matchAtIndex m expr k = false)) ∧
    ((∃ r, table.findPreviousAux m expr m.data.Matches.length m.rowSelected = some r) ∧
      (table.findPreviousAux m expr m.data.Matches.length m.rowSelected = some table.notFound ↔
        ∀ k : Nat, k < m.data.Matches.length → (k : Int) ≠ m.rowSelected →
          table.matchAtIndex m expr k = false)) := by
  have hs : m.rowSelected = ((m.rowSelected.toNat : Nat) : Int) := by omega
  have hsN : m.rowSelected.toNat < m.data.Matches.length := by
    simp only [table.lastRowIndex, table.totalRowCount] at h1
    omega
  have hmain := table.findNextAux_main m expr m.rowSelected.toNat hs hsN
    m.data.Matches.length le_rfl
  have hmain' := table.findPreviousAux_main m expr m.rowSelected.toNat hs hsN
    m.data.Matches.length le_rfl
  constructor
  · refine ⟨hmain.1, ?_⟩
    rw [hmain.2]
    constructor
    · intro hall k hk1 hk2
      exact hall k hk1 (by omega)
    · intro hall k hk1 hk2
      exact hall k hk1 (by omega)
  · refine ⟨hmain'.1, ?_⟩
    rw [hmain'.2]
    constructor
    · intro hall k hk1 hk2
      exact hall k hk1 (by omega)
    · intro hall k hk1 hk2
      exact hall k hk1 (by omega)

theorem C3_witness :
    table.findNextAux sample.m3 "zzz" sample.m3.data.Matches.length sample.m3.rowSelected =
      some table.notFound ∧
    table.findPreviousAux sample.m3 "zzz" sample.m3.data.Matches.length sample.m3.rowSelected =
      some table.notFound := by
  have h := C3_search_termination sample.m3 "zzz" (by decide) (by decide)
  exact ⟨h.1.2.mpr (by decide), h.2.2.mpr (by decide)⟩

/-- C4: `find` scans from index 0 and yields the least matching index: it
returns `notFound` exactly when no row's package name or vulnerability id
contains the expression, and whenever it returns an index `i`, row `i`
matches, no row before `i` matches, and the public `Find` succeeds with
selection `i`, the expression persisted, and the window re-derived via
`selectAndShowRow` (i.e. `updateWindow`). -/
theorem C4_find_first_match (m : table.Model) (expr : String) :
    (table.find m expr = table.notFound ↔
      ∀ k : Nat, k < m.data.Matches.length → table.matchAtIndex m expr k = false)
  ∧ (∀ i : Nat, table.find m expr = (i : Int) →
      i < m.data.Matches.length ∧ table.matchAtIndex m expr i = true ∧
      (∀ j : Nat, j < i → table.matchAtIndex m expr j = false) ∧
      table.Find m expr =
        (table.selectAndShowRow { m with findExpression := expr } (i : Int), none) ∧
      (table.Find m expr).1.rowSelected = (i : Int) ∧
      (table.Find m expr).1.findExpression = expr) := by
  have hchar := table.findAux_char expr m.data.Matches 0
  constructor
  · rcases hchar with ⟨he, hall⟩ | ⟨k, hk, he, hmk, hlt⟩
    · constructor
      · intro _ j hj
        exact hall j hj
      · intro _
        exact he
    · constructor
      · intro habs
        rw [show table.find m expr = table.findAux expr m.data.Matches 0 from rfl, he] at habs
        simp only [table.notFound] at habs
        omega
      · intro hall
        exact absurd (hall k hk) (by simp only [table.matchAtIndex, hmk]; simp)
  · intro i hi
    rcases hchar with ⟨he, hall⟩ | ⟨k, hk, he, hmk, hlt⟩
    · rw [show table.find m expr = table.findAux expr m.data.Matches 0 from rfl, he] at hi
      simp only [table.notFound] at hi
      omega
    · rw [show table.find m expr = table.findAux expr m.data.Matches 0 from rfl, he] at hi
      have hki : k = i := by omega
      subst hki
      have hfe : table.find { m with findExpression := expr } expr = (k : Int) := by
        rw [show table.find { m with findExpression := expr } expr =
          table.findAux expr m.data.Matches 0 from rfl, he]
        omega
      have hFind : table.Find m expr =
          (table.selectAndShowRow { m with findExpression := expr } (k : Int), none) := by
        simp only [table.Find, hfe]
        rw [if_neg (by simp only [table.notFound]; omega)]
      refine ⟨hk, by simpa [table.matchAtIndex] using hmk, hlt, hFind, ?_, ?_⟩
      · rw [hFind]
        exact (table.selectAndShowRow_proj { m with findExpression := expr } (k : Int)).1
      · rw [hFind]
        have := (table.updateWindow_proj
          { { m with findExpression := expr } with rowSelected := (k : Int) }).2.2.2
        simpa [table.selectAndShowRow] using this

theorem C4_witness :
    table.matchAtIndex sample.m3 "pkg-b" 1 = true ∧
    (table.Find sample.m3 "pkg-b").1.rowSelected = ((1 : Nat) : Int) ∧
    (table.Find sample.m3 "pkg-b").1.findExpression = "pkg-b" := by
  have h := (C4_find_first_match sample.m3 "pkg-b").2 1 (by decide)
  exact ⟨h.2.1, h.2.2.2.2.1, h.2.2.2.2.2⟩

/-- C5 (counterexample): on the one-row store, `Find` with the empty
expression does not fail: it succeeds (`error = nil`) and selects row 0,
because Go `strings.Contains(s, "")` is `true` for every `s`. -/
theorem C5_counterexample :
    (table.Find (table.New sample.d1) "").2 = none ∧
    (table.Find (table.New sample.d1) "").1.rowSelected = 0 ∧
    sample.d1.Matches.length = 1 := by
  decide

/-- C5 (amended): the empty expression matches every row (Go
`strings.Contains(s, "")` is `true`), so `find("")` succeeds at row 0 on
every non-empty match list — it does return row 0 — and fails with
`NotFound` exactly when the list is empty. -/
theorem C5_empty_expression_amended (m : table.Model) :
    (0 < m.data.Matches.length →
      table.Find m "" = (table.selectAndShowRow { m with findExpression := "" } 0, none))
  ∧ (m.data.Matches.length = 0 →
      table.Find m "" = (table.zeroModel, some table.GoErr.NoMatchFound)) := by
  constructor
  · intro hN
    obtain ⟨mt, rest, hml⟩ : ∃ mt rest, m.data.Matches = mt :: rest := by
      cases hm : m.data.Matches with
      | nil => rw [hm] at hN; simp at hN
      | cons mt rest => exact ⟨mt, rest, rfl⟩
    have hfe : table.find { m with findExpression := "" } "" = 0 := by
      rw [show table.find { m with findExpression := "" } "" =
        table.findAux "" m.data.Matches 0 from rfl, hml]
      simp [table.findAux, table.filterMatchFound_empty]
    simp only [table.Find, hfe]
    rw [if_neg (by simp [table.notFound])]
  · intro hN
    have hml : m.data.Matches = [] := List.length_eq_zero.mp hN
    have hfe : table.find { m with findExpression := "" } "" = table.notFound := by
      rw [show table.find { m with findExpression := "" } "" =
        table.findAux "" m.data.Matches 0 from rfl, hml]
      rfl
    simp only [table.Find, hfe]
    simp

theorem C5_witness :
    table.Find (table.New sample.d1) "" =
      (table.selectAndShowRow { table.New sample.d1 with findExpression := "" } 0, none) :=
  (C5_empty_expression_amended (table.New sample.d1)).1 (by decide)

/-- C8 (counterexample): for the state over the empty store with height 3
(`windowSize = 2 ≥ 0`), `renderDataRows` takes its early return and emits
the empty string — 0 lines, not `windowSize = 2` lines. -/
theorem C8_counterexample :
    table.renderDataRows (table.SetHeight (table.New sample.dEmpty) 3) = "" ∧
    table.countRowsShown (table.SetHeight (table.New sample.dEmpty) 3) = 2 := by
  decide

/-- C8 (amended): when the window start is an existing row index
(`windowStart ≤ N-1`, `windowStart ≥ 0`) and the window size is
nonnegative, the table body rendering emits exactly `windowSize`
newline-terminated lines — real rows for indices up to `N-1`, blank filler
lines beyond; but when the window starts past the last row (e.g. `N = 0`),
the body is the empty string, emitting 0 lines. -/
theorem C8_fixed_height_rendering_amended :
    (∀ m : table.Model, 0 ≤ m.firstRowShown → m.firstRowShown ≤ table.lastRowIndex m →
      0 ≤ table.countRowsShown m →
      (∀ mt ∈ m.data.Matches, table.rowFieldsSingleLine mt) →
      table.countNL (table.renderDataRows m) = (table.countRowsShown m).toNat)
  ∧ (∀ m : table.Model, m.firstRowShown > table.lastRowIndex m →
      table.renderDataRows m = "") := by
  constructor
  · intro m hws0 hws1 hsz hf
    rw [table.renderDataRows, if_neg (by omega)]
    exact table.countNL_renderRowsFrom m hf (table.countRowsShown m).toNat m.firstRowShown hws0
  · intro m hws
    rw [table.renderDataRows, if_pos hws]

theorem C8_witness :
    table.countNL (table.renderDataRows sample.m3) = (table.countRowsShown sample.m3).toNat :=
  C8_fixed_height_rendering_amended.1 sample.m3 (by decide) (by decide) (by decide)
    (by simp only [table.rowFieldsSingleLine]; decide)

/-- C10: whenever no row matches, the three public search operations each
return the zero-valued `table.Model{}` (data, selection, window,
dimensions, and search expression all reset) together with the
`NoMatchFound` error — not the receiver — so a caller that keeps the
returned model on error loses the entire table state. -/
theorem C10_failure_returns_zero_model (m : table.Model) (expr : String)
    (hnm : ∀ k : Nat, k < m.data.Matches.length → table.matchAtIndex m expr k = false)
    (h0 : 0 ≤ m.rowSelected) (h1 : m.rowSelected ≤ table.lastRowIndex m)
    (hexpr : m.findExpression = expr) :
    table.Find m expr = (table.zeroModel, some table.GoErr.NoMatchFound) ∧
    table.FindNext m = some (table.zeroModel, some table.GoErr.NoMatchFound) ∧
    table.FindPrevious m = some (table.zeroModel, some table.GoErr.NoMatchFound) := by
  have hs : m.rowSelected = ((m.rowSelected.toNat : Nat) : Int) := by omega
  have hsN : m.rowSelected.toNat < m.data.Matches.length := by
    simp only [table.lastRowIndex, table.totalRowCount] at h1
    omega
  refine ⟨?_, ?_, ?_⟩
  · have hfe : table.find { m with findExpression := expr } expr = table.notFound := by
      rw [show table.find { m with findExpression := expr } expr =
        table.findAux expr m.data.Matches 0 from rfl]
      rcases table.findAux_char expr m.data.Matches 0 with ⟨he, _⟩ | ⟨k, hk, _, hmk, _⟩
      · exact he
      · exact absurd (hnm k hk) (by simp only [table.matchAtIndex, hmk]; simp)
    simp only [table.Find, hfe]
    simp
  · have hscan := (table.findNextAux_main m expr m.rowSelected.toNat hs hsN
      m.data.Matches.length le_rfl).2.mpr (fun k hk _ => hnm k hk)
    simp only [table.FindNext, table.findNext, hexpr, hscan]
    simp
  · have hscan := (table.findPreviousAux_main m expr m.rowSelected.toNat hs hsN
      m.data.Matches.length le_rfl).2.mpr (fun k hk _ => hnm k hk)
    simp only [table.FindPrevious, table.findPrevious, hexpr, hscan]
    simp

theorem C10_witness :
    table.Find sample.m3z "zzz" = (table.zeroModel, some table.GoErr.NoMatchFound) ∧
    table.FindNext sample.m3z = some (table.zeroModel, some table.GoErr.NoMatchFound) ∧
    table.FindPrevious sample.m3z = some (table.zeroModel, some table.GoErr.NoMatchFound) :=
  C10_failure_returns_zero_model sample.m3z "zzz" (by decide) (by decide) (by decide) rfl

/-- C6: whenever a search fails with NotFound, the browser state after the
event equals the state before it — the repeat-search keys `n`/`N` in scroll
mode and the commit key in filter-entry mode leave the model (selection,
window, mode, buffer — everything) exactly unchanged, discarding the zero
model the table search handed back. -/
theorem C6_notfound_atomicity (m : triage.model) :
    ((m.mode = triage.Mode.ModeDataScroll →
      ∀ p, table.FindNext m.table = some p → p.2 = some table.GoErr.NoMatchFound →
      triage.Update m (triage.TriageMsg.key "n") = some (m, triage.Cmd.cnone)) ∧
     (m.mode = triage.Mode.ModeDataScroll →
      ∀ p, table.FindPrevious m.table = some p → p.2 = some table.GoErr.NoMatchFound →
      triage.Update m (triage.TriageMsg.key "N") = some (m, triage.Cmd.cnone)) ∧
     (m.mode = triage.Mode.ModeFilterEntry →
      (table.Find m.table m.filter.value).2 = some table.GoErr.NoMatchFound →
      triage.Update m (triage.TriageMsg.key "enter") = some (m, triage.Cmd.cnone))) := by
  refine ⟨?_, ?_, ?_⟩
  · intro hmode p hp herr
    obtain ⟨t, e⟩ := p
    simp only at herr
    subst herr
    by_cases hv : m.filter.value = ""
    · simp [triage.Update, hmode, hv, triage.tableFallthrough, triage.tableUpdate]
      rw [← hmode]
    · simp [triage.Update, hmode, hv, hp, triage.tableFallthrough, triage.tableUpdate]
      rw [← hmode]
  · intro hmode p hp herr
    obtain ⟨t, e⟩ := p
    simp only at herr
    subst herr
    by_cases hv : m.filter.value = ""
    · simp [triage.Update, hmode, hv, triage.tableFallthrough, triage.tableUpdate]
      rw [← hmode]
    · simp [triage.Update, hmode, hv, hp, triage.tableFallthrough, triage.tableUpdate]
  · intro hmode herr
    simp [triage.Update, hmode, herr]

theorem C6_witness :
    triage.Update sample.tScroll (triage.TriageMsg.key "n") =
      some (sample.tScroll, triage.Cmd.cnone) ∧
    triage.Update sample.tScroll (triage.TriageMsg.key "N") =
      some (sample.tScroll, triage.Cmd.cnone) ∧
    triage.Update sample.tFilter (triage.TriageMsg.key "enter") =
      some (sample.tFilter, triage.Cmd.cnone) :=
  ⟨(C6_notfound_atomicity sample.tScroll).1 rfl
      (table.zeroModel, some table.GoErr.NoMatchFound) (by decide) rfl,
   (C6_notfound_atomicity sample.tScroll).2.1 rfl
      (table.zeroModel, some table.GoErr.NoMatchFound) (by decide) rfl,
   (C6_notfound_atomicity sample.tFilter).2.2 rfl (by decide)⟩

/-- C7: the layout split mirrors `expectedComponentHeights` exactly — with
`showDetails` off the table gets the whole height and the detail pane 0;
with it on the detail pane gets `height / 2` (Go truncating integer
division) and the table the remainder; filter-entry mode costs the table
one further row after the detail split; the split is a pure function of
`(height, mode, showDetails)`; and at height 10 with details shown the
split is table 5/detail 5 in scroll mode and table 4/detail 5 in
filter-entry mode. -/
theorem C7_layout_split (m : triage.model) (_h : 0 ≤ m.height) :
    (m.showDetails = false →
      triage.expectedComponentHeights m =
        ((if m.mode = triage.Mode.ModeFilterEntry then m.height - 1 else m.height), 0))
  ∧ (m.showDetails = true →
      triage.expectedComponentHeights m =
        ((m.height - Int.tdiv m.height 2) -
          (if m.mode = triage.Mode.ModeFilterEntry then 1 else 0),
          Int.tdiv m.height 2))
  ∧ (∀ m' : triage.model, m.height = m'.height → m.mode = m'.mode →
      m.showDetails = m'.showDetails →
      triage.expectedComponentHeights m = triage.expectedComponentHeights m')
  ∧ triage.expectedComponentHeights sample.tLayout = (5, 5)
  ∧ triage.expectedComponentHeights
      { sample.tLayout with mode := triage.Mode.ModeFilterEntry } = (4, 5) := by
  refine ⟨?_, ?_, ?_, by decide, by decide⟩
  · intro hd
    simp only [triage.expectedComponentHeights, hd, Bool.false_eq_true, if_false]
    all_goals split_ifs <;> simp
  · intro hd
    simp only [triage.expectedComponentHeights, hd, if_true]
    all_goals split_ifs <;> simp
  · intro m' he hm hs
    simp only [triage.expectedComponentHeights, he, hm, hs]

theorem C7_witness :
    sample.tLayout.showDetails = true ∧
    triage.expectedComponentHeights sample.tLayout =
      ((sample.tLayout.height - Int.tdiv sample.tLayout.height 2) -
        (if sample.tLayout.mode = triage.Mode.ModeFilterEntry then 1 else 0),
        Int.tdiv sample.tLayout.height 2) :=
  ⟨rfl, (C7_layout_split sample.tLayout (by decide)).2.1 rfl⟩

/-- C9: pressing enter in filter-entry mode invokes `Find` on the current
buffer text; on NotFound the machine stays in filter-entry mode with the
buffer intact (the state is unchanged), and on success the table takes the
found selection/window, the input is blurred, the mode returns to scroll
and the layout is recomputed via `updateComponentSizes`. -/
theorem C9_filterentry_commit (m : triage.model)
    (hmode : m.mode = triage.Mode.ModeFilterEntry) :
    ((table.Find m.table m.filter.value).2 = some table.GoErr.NoMatchFound →
      triage.Update m (triage.TriageMsg.key "enter") = some (m, triage.Cmd.cnone))
  ∧ ((table.Find m.table m.filter.value).2 = none →
      triage.Update m (triage.TriageMsg.key "enter") =
        some (triage.updateComponentSizes
          { m with
            table := (table.Find m.table m.filter.value).1
            filter := triage.blurInput m.filter
            mode := triage.Mode.ModeDataScroll },
          triage.Cmd.cnone)) := by
  constructor
  · intro herr
    simp [triage.Update, hmode, herr]
  · intro herr
    simp [triage.Update, hmode, herr]

theorem C9_witness :
    triage.Update sample.tFilter (triage.TriageMsg.key "enter") =
      some (sample.tFilter, triage.Cmd.cnone) ∧
    triage.Update sample.tFilterHit (triage.TriageMsg.key "enter") =
      some (triage.updateComponentSizes
        { sample.tFilterHit with
          table := (table.Find sample.tFilterHit.table sample.tFilterHit.filter.value).1
          filter := triage.blurInput sample.tFilterHit.filter
          mode := triage.Mode.ModeDataScroll },
        triage.Cmd.cnone) :=
  ⟨(C9_filterentry_commit sample.tFilter rfl).1 (by decide),
   (C9_filterentry_commit sample.tFilterHit rfl).2 (by decide)⟩
